import Mathlib

/-!
Verification of the KIO worker-protocol / StatJob layer.

The development shallowly embeds `src/core/statjob.cpp` and the worker-side
contracts declared in `src/core/slavebase.h`.  External Qt/KDE types (QUrl,
QByteArray, QMap, UDSEntry attribute ids, the KIO error / command enums) are
modelled just deeply enough to mirror the operations the embedded code uses.
Functions whose bodies live outside the reviewed sources (the SlaveBase
implementation, SimpleJobPrivate) are modelled from the specification; each
such definition carries a doc comment starting with `Modelled from the spec:`.
-/

namespace KIOModel

/-- Model of `QUrl`: a scheme, the remainder of the URL, and a validity flag.
Only the operations used by the embedded code are provided
(`isEmpty`, `isValid`, `isLocalFile`, `fromLocalFile`, `toDisplayString`). -/
structure QUrl where
  scheme : String
  rest : String
  valid : Bool
deriving DecidableEq

/-- `QUrl::isEmpty()`: no data at all. -/
def QUrl.isEmpty (u : QUrl) : Bool :=
  u.scheme == "" && u.rest == ""

/-- `QUrl::isValid()`. -/
def QUrl.isValid (u : QUrl) : Bool :=
  u.valid

/-- `QUrl::isLocalFile()`: the scheme is `file`. -/
def QUrl.isLocalFile (u : QUrl) : Bool :=
  u.scheme == "file"

/-- `QUrl::fromLocalFile(path)`: a valid `file` URL for a local path. -/
def QUrl.fromLocalFile (path : String) : QUrl :=
  ⟨"file", path, true⟩

/-- `QUrl::toDisplayString()`, modelled as a plain rendering of the URL. -/
def QUrl.toDisplayString (u : QUrl) : String :=
  u.scheme ++ ":" ++ u.rest

/-- The default-constructed (empty, invalid) `QUrl`. -/
def QUrl.emptyUrl : QUrl :=
  ⟨"", "", false⟩

/-- A typed UDS value: the type (string vs numeric) is determined by the
attribute id, not carried per entry on the wire. -/
inductive UDSValue where
  | str (s : String)
  | num (n : Int)
deriving DecidableEq

/-- `KIO::UDSEntry`: an ordered set of (attribute-id, typed value) pairs. -/
abbrev UDSEntry := List (Nat × UDSValue)

/-- `UDSEntry::stringValue(field)`: the string stored for `field`, or the
empty string when the field is absent or numeric. -/
def udsStringValue (e : UDSEntry) (field : Nat) : String :=
  match e.find? (fun p => p.1 == field) with
  | some (_, UDSValue.str s) => s
  | _ => ""

/-- `KIO::UDSEntry::UDS_LOCAL_PATH` attribute id.  The numeric value comes
from the external header `udsentry.h` (string-typed attribute); only its
identity matters here. -/
def UDS_LOCAL_PATH : Nat := 0x01000030

/-- `KIO::MetaData` (a `QMap<QString, QString>`): an ordered string-to-string
mapping with unique keys, modelled as an association list. -/
abbrev MetaData := List (String × String)

/-- `QMap::insert`: replaces the value when the key is present, otherwise
adds the pair. -/
def mdInsert (m : MetaData) (k v : String) : MetaData :=
  match m with
  | [] => [(k, v)]
  | (k', v') :: rest =>
    if k' == k then (k, v) :: rest else (k', v') :: mdInsert rest k v

/-- Key lookup in a `MetaData` map. -/
def mdLookup (m : MetaData) (k : String) : Option String :=
  match m with
  | [] => none
  | (k', v') :: rest => if k' == k then some v' else mdLookup rest k

/-- `KIO::StatDetail` flag values, from the external header `global.h`. -/
def StatBasic : Nat := 0x1

/-- `KIO::StatUser`. -/
def StatUser : Nat := 0x2

/-- `KIO::StatTime`. -/
def StatTime : Nat := 0x4

/-- `KIO::StatResolveSymlink`. -/
def StatResolveSymlink : Nat := 0x8

/-- `KIO::StatAcl`. -/
def StatAcl : Nat := 0x10

/-- `KIO::StatInode`. -/
def StatInode : Nat := 0x20

/-- `KIO::StatDefaultDetails = StatBasic | StatUser | StatTime | StatAcl |
StatResolveSymlink`. -/
def StatDefaultDetails : Nat :=
  StatBasic ||| StatUser ||| StatTime ||| StatAcl ||| StatResolveSymlink

/-- `KIO::detailsToStatDetails(int details)` from `statjob.cpp`: the legacy
integer-details to flag-bitmask conversion. -/
def detailsToStatDetails (details : Int) : Nat :=
  let detailsFlag := StatBasic
  let detailsFlag := if details > 0 then detailsFlag ||| (StatUser ||| StatTime) else detailsFlag
  let detailsFlag := if details > 1 then detailsFlag ||| (StatResolveSymlink ||| StatAcl) else detailsFlag
  let detailsFlag := if details > 2 then detailsFlag ||| StatInode else detailsFlag
  detailsFlag

/-- A bitmask `x` includes flag `f`. -/
def hasFlag (x f : Nat) : Prop :=
  x &&& f ≠ 0

instance (x f : Nat) : Decidable (hasFlag x f) := by
  unfold hasFlag; infer_instance

/-- `KIO::ERR_ACCESS_DENIED`, from the external KIO error enum. -/
def ERR_ACCESS_DENIED : Int := 111

/-- `CMD_STAT`, from the external KIO command enum. -/
def CMD_STAT : Nat := 69

/-- `StatJob::StatSide`. -/
inductive StatSide where
  | SourceSide
  | DestinationSide
deriving DecidableEq

/-- Qt signals emitted by a `StatJob` towards its listeners. -/
inductive Signal where
  | redirectionSig (url : QUrl)
  | permanentRedirectionSig (fromUrl toUrl : QUrl)
deriving DecidableEq

/-- The state of one `StatJob`: the `StatJobPrivate` fields of `statjob.cpp`
together with the inherited `SimpleJobPrivate`/`KJob` fields the embedded
code reads and writes (`m_url`, `m_packedArgs`, outgoing/incoming metadata,
`m_redirectionHandlingEnabled`, the error code/text).  The packed argument
byte stream is modelled by the list of URLs serialized into it. -/
structure StatJobState where
  m_url : QUrl
  m_command : Nat
  m_packedArgs : List QUrl
  m_outgoingMetaData : MetaData
  m_incomingMetaData : MetaData
  m_redirectionHandlingEnabled : Bool
  errorCode : Int
  errorText : String
  m_statResult : UDSEntry
  m_redirectionURL : QUrl
  m_bSource : Bool
  m_details : Nat
deriving DecidableEq

/-- `StatJobPrivate`'s constructor together with `newJob`: a fresh job for
`url` with the given command and packed arguments; `m_bSource = true`,
`m_details = StatDefaultDetails`, redirection handling enabled by default,
no error, no result, no recorded redirection. -/
def newStatJob (url : QUrl) (command : Nat) (packedArgs : List QUrl) : StatJobState where
  m_url := url
  m_command := command
  m_packedArgs := packedArgs
  m_outgoingMetaData := []
  m_incomingMetaData := []
  m_redirectionHandlingEnabled := true
  errorCode := 0
  errorText := ""
  m_statResult := []
  m_redirectionURL := QUrl.emptyUrl
  m_bSource := true
  m_details := StatDefaultDetails

/-- `StatJob::setSide(StatSide side)`: `m_bSource = (side == SourceSide)`. -/
def setSide (side : StatSide) (s : StatJobState) : StatJobState :=
  { s with m_bSource := side == StatSide.SourceSide }

/-- `StatJob::setDetails(KIO::StatDetails details)`. -/
def setDetails (details : Nat) (s : StatJobState) : StatJobState :=
  { s with m_details := details }

/-- `StatJob::statResult()`. -/
def statResult (s : StatJobState) : UDSEntry :=
  s.m_statResult

/-- `StatJob::mostLocalUrl()` from `statjob.cpp`: the job's own URL when it
is a local file; otherwise a local-file URL built from the stat result's
`UDS_LOCAL_PATH` string when that is non-empty, and the job's URL when it
is empty. -/
def mostLocalUrl (s : StatJobState) : QUrl :=
  let url := s.m_url
  if url.isLocalFile then
    url
  else
    let path := udsStringValue s.m_statResult UDS_LOCAL_PATH
    if !(path == "") then QUrl.fromLocalFile path else url

/-- `StatJobPrivate::slotStatEntry`: store the received entry as the job's
stat result.  The handler updates job-local state only; it never terminates
the job (termination happens solely in `slotFinished` / the error path). -/
def slotStatEntry (entry : UDSEntry) (s : StatJobState) : StatJobState :=
  { s with m_statResult := entry }

/-- `StatJobPrivate::slotRedirection`: the redirection target is first
checked by the pluggable authorization predicate
(`KUrlAuthorized::authorizeUrlAction("redirect", m_url, url)`, passed in as
`auth`).  On rejection the job's error becomes access-denied with the
rejected URL as error text, the URL is not recorded and no signal is
emitted; on acceptance the URL is recorded and the redirection signal is
emitted.  Returns the new state and the emitted signals. -/
def slotRedirection (auth : String → QUrl → QUrl → Bool) (url : QUrl)
    (s : StatJobState) : StatJobState × List Signal :=
  if !(auth "redirect" s.m_url url) then
    ({ s with errorCode := ERR_ACCESS_DENIED, errorText := url.toDisplayString }, [])
  else
    ({ s with m_redirectionURL := url }, [Signal.redirectionSig url])

/-- Outcome of `StatJob::slotFinished`: the job is either re-armed and
rescheduled against the redirection target, or it terminates, surfacing the
state it accumulated. -/
inductive FinishedOutcome where
  | rescheduled (s : StatJobState) (sigs : List Signal)
  | terminated (s : StatJobState) (sigs : List Signal)
deriving DecidableEq

/-- The guard of `StatJob::slotFinished`:
`!m_redirectionURL.isEmpty() && m_redirectionURL.isValid()`. -/
def hasValidRedirect (s : StatJobState) : Bool :=
  !s.m_redirectionURL.isEmpty && s.m_redirectionURL.isValid

/-- The `permanentRedirection` signal emitted by `slotFinished` when the
job's `permanent-redirect` metadata is `"true"`. -/
def permanentRedirectSigs (s : StatJobState) : List Signal :=
  if mdLookup s.m_incomingMetaData "permanent-redirect" == some "true" then
    [Signal.permanentRedirectionSig s.m_url s.m_redirectionURL]
  else
    []

/-- `StatJob::slotFinished` from `statjob.cpp`: when a non-empty, valid
redirection URL was recorded, possibly emit `permanentRedirection` (if the
`permanent-redirect` metadata is `"true"`), and, when redirection handling
is enabled, truncate the packed arguments, re-serialize only the
redirection URL into them and reschedule.  Otherwise fall through to
`SimpleJob::slotFinished()`, terminating with the accumulated state. -/
def slotFinished (s : StatJobState) : FinishedOutcome :=
  if hasValidRedirect s then
    let sigs := permanentRedirectSigs s
    if s.m_redirectionHandlingEnabled then
      FinishedOutcome.rescheduled { s with m_packedArgs := [s.m_redirectionURL] } sigs
    else
      FinishedOutcome.terminated s sigs
  else
    FinishedOutcome.terminated s []

/-- `StatJobPrivate::start` (the part implemented in `statjob.cpp`): insert
the `statSide` and `statDetails` outgoing-metadata keys before delegating to
`SimpleJobPrivate::start`. -/
def startStatJob (s : StatJobState) : StatJobState :=
  { s with
    m_outgoingMetaData :=
      mdInsert
        (mdInsert s.m_outgoingMetaData "statSide"
          (if s.m_bSource then "source" else "dest"))
        "statDetails" (toString s.m_details) }

/-- One command frame sent from the application to the worker. -/
structure CommandFrame where
  cmd : Nat
  args : List QUrl
  meta : MetaData
deriving DecidableEq

/-- Modelled from the spec: `SimpleJobPrivate::start` is not under the
reviewed sources; per the spec it sends the initial command to the assigned
worker with the job's serialized arguments and outgoing metadata. -/
def issuedCommand (s : StatJobState) : CommandFrame :=
  ⟨s.m_command, s.m_packedArgs, s.m_outgoingMetaData⟩

/-- `KIO::statDetails(url, side, details, flags)` from `statjob.cpp`:
`KIO_ARGS << url` serializes the target URL, the job is created with
`CMD_STAT`, then `setSide` and `setDetails` are applied. -/
def statDetailsJob (url : QUrl) (side : StatSide) (details : Nat) : StatJobState :=
  setDetails details (setSide side (newStatJob url CMD_STAT [url]))

/-- Modelled from the spec: `SimpleJobPrivate::restartAfterRedirection` is
not under the reviewed sources; per the spec the re-armed job targets the
recorded redirection URL, the recorded candidate is cleared, and the job
transitions back to the scheduler queue. -/
def restartAfterRedirection (s : StatJobState) : StatJobState :=
  { s with m_url := s.m_redirectionURL, m_redirectionURL := QUrl.emptyUrl }

/-- The worker's visible reply to one STAT round, as consumed by the job:
either a stat entry or a redirection, each followed by `Finished`. -/
inductive WorkerReply where
  | entry (e : UDSEntry)
  | redirect (u : QUrl)
deriving DecidableEq

/-- One operation round of a StatJob: the job consumes the worker's event
through its handler and then the terminal `Finished` event through
`slotFinished`. -/
def runOp (auth : String → QUrl → QUrl → Bool) (reply : WorkerReply)
    (s : StatJobState) : FinishedOutcome :=
  match reply with
  | WorkerReply.entry e => slotFinished (slotStatEntry e s)
  | WorkerReply.redirect u => slotFinished (slotRedirection auth u s).1

/-- Result of running a redirection chain to completion. -/
inductive ChainResult where
  | completed (final : StatJobState) (hops : Nat)
  | loopError
deriving DecidableEq

/-- Modelled from the spec: the scheduler's re-arm loop with its
implementation-defined redirection-chain hop limit is not under the
reviewed sources.  Each round runs one STAT operation against the job's
current URL (the worker's behavior is the function `worker`); a rescheduled
outcome re-arms the job via `restartAfterRedirection` and consumes one unit
of the remaining hop budget; an exhausted budget is the loop-detection
failure. -/
def runChain (auth : String → QUrl → QUrl → Bool) (worker : QUrl → WorkerReply) :
    Nat → Nat → StatJobState → ChainResult
  | 0, _, _ => ChainResult.loopError
  | fuel + 1, hops, s =>
    match runOp auth (worker s.m_url) s with
    | FinishedOutcome.terminated final _ => ChainResult.completed final hops
    | FinishedOutcome.rescheduled s1 _ =>
      runChain auth worker fuel (hops + 1) (restartAfterRedirection s1)

/-- The events a worker can emit towards the scheduler/job, per the spec's
Event data model (payloads modelled abstractly where their structure is
irrelevant to the protocol rules). -/
inductive WEvent where
  | dataEv (bytes : List Nat)
  | dataRequest
  | connected
  | errorEv (code : Int) (text : String)
  | finishedEv
  | statEntryEv (e : UDSEntry)
  | listEntriesEv (es : List UDSEntry)
  | totalSizeEv (n : Nat)
  | processedSizeEv (n : Nat)
  | redirectionEv (u : QUrl)
  | mimeTypeEv (s : String)
  | warningEv (s : String)
  | infoMessageEv (s : String)
  | messageBoxRequest
  | canResumeEv (offset : Nat)
  | metaDataEv (m : MetaData)
deriving DecidableEq

/-- The two terminal events: `Error` and `Finished`. -/
def WEvent.isTerminal : WEvent → Bool
  | WEvent.errorEv _ _ => true
  | WEvent.finishedEv => true
  | _ => false

/-- The per-operation phase tracked by the channel/dispatch layer. -/
inductive OpPhase where
  | running
  | terminatedPhase
deriving DecidableEq

/-- Modelled from the spec: the `SlaveBase`/channel implementation is not
under the reviewed sources; per `slavebase.h`'s contract (`error()`
finishes the job, `finished()` must not follow it and vice versa) and the
spec, a terminal event moves the operation to the terminated phase and any
event received afterwards is a protocol violation that aborts the channel
(`none`). -/
def opAccept : OpPhase → WEvent → Option OpPhase
  | OpPhase.running, e =>
    some (if e.isTerminal then OpPhase.terminatedPhase else OpPhase.running)
  | OpPhase.terminatedPhase, _ => none

/-- Folds `opAccept` over an event trace; `none` when the channel aborted. -/
def acceptTrace : OpPhase → List WEvent → Option OpPhase
  | p, [] => some p
  | p, e :: rest =>
    match opAccept p e with
    | some p1 => acceptTrace p1 rest
    | none => none

/-- The dispatch loop's phase: blocked waiting for a command, or executing
one. -/
inductive LoopPhase where
  | waiting
  | executing (cmd : Nat) (data : List Nat)
deriving DecidableEq

/-- Worker dispatch-loop state: the current phase and the armed timeout
special command (timeout seconds and `SPECIAL` payload), at most one. -/
structure WorkerLoop where
  phase : LoopPhase
  pendingSpecial : Option (Int × List Nat)
deriving DecidableEq

/-- `SlaveBase::setTimeoutSpecialCommand(timeout, data)`.  Modelled from the
spec: the implementation is not under the reviewed sources; per
`slavebase.h`'s contract a negative timeout cancels a pending timeout, and
only one timeout is supported at a time — setting one cancels any pending
one. -/
def setTimeoutSpecialCommand (t : Int) (data : List Nat) (s : WorkerLoop) : WorkerLoop :=
  if t < 0 then
    { s with pendingSpecial := none }
  else
    { s with pendingSpecial := some (t, data) }

/-- Inputs observed by the dispatch loop: a command frame arrives, the armed
timeout elapses with no command, or the running operation returns. -/
inductive LoopInput where
  | arrive (cmd : Nat) (data : List Nat)
  | timeoutElapsed
  | opDone
deriving DecidableEq

/-- Modelled from the spec: the dispatch loop (`SlaveBase::dispatchLoop`) is
not under the reviewed sources.  Per the spec and `slavebase.h`'s contract:
while waiting, an arriving command starts executing; if instead the armed
timeout elapses, the armed special command fires exactly once — the loop
behaves as if the application had sent `special(data)`, the armed timeout is
cleared and the loop returns to waiting.  A timeout can only fire while the
loop waits for a command.  The second component is the `special` payload
fired by the step, if any. -/
def loopStep (s : WorkerLoop) (i : LoopInput) : WorkerLoop × Option (List Nat) :=
  match s.phase, i with
  | LoopPhase.waiting, LoopInput.arrive c d =>
    ({ s with phase := LoopPhase.executing c d }, none)
  | LoopPhase.waiting, LoopInput.timeoutElapsed =>
    match s.pendingSpecial with
    | some (_, d) => ({ phase := LoopPhase.waiting, pendingSpecial := none }, some d)
    | none => (s, none)
  | LoopPhase.waiting, LoopInput.opDone => (s, none)
  | LoopPhase.executing _ _, LoopInput.opDone =>
    ({ s with phase := LoopPhase.waiting }, none)
  | LoopPhase.executing _ _, _ => (s, none)

/-- Worker-side session metadata state: the outgoing and incoming maps of
`SlaveBase` (`mOutgoingMetaData` / `mIncomingMetaData`). -/
structure SessionState where
  mOutgoingMetaData : MetaData
  mIncomingMetaData : MetaData
deriving DecidableEq

/-- `SlaveBase::sendMetaData()`.  Modelled from the spec: the implementation
is not under the reviewed sources; per `slavebase.h`'s contract it transmits
`mOutgoingMetaData` to the application and clears it, so a later job served
by the same worker does not see metadata sent before. -/
def sendMetaData (s : SessionState) : MetaData × SessionState :=
  (s.mOutgoingMetaData, { s with mOutgoingMetaData := [] })

/-- `SlaveBase::sendAndKeepMetaData()`.  Modelled from the spec: like
`sendMetaData` but `mOutgoingMetaData` is not cleared. -/
def sendAndKeepMetaData (s : SessionState) : MetaData × SessionState :=
  (s.mOutgoingMetaData, s)

/-! Sample inputs used by witness statements. -/

/-- A sample remote URL. -/
def urlA : QUrl := ⟨"http", "//host/file", true⟩

/-- A second sample remote URL, used as a redirection target. -/
def urlB : QUrl := ⟨"http", "//host2/file", true⟩

/-- A freshly created sample STAT job for `urlA`. -/
def sampleJob : StatJobState := newStatJob urlA CMD_STAT [urlA]

/-- The sample job after a recorded redirection to `urlB`. -/
def sampleJobRedir : StatJobState := { sampleJob with m_redirectionURL := urlB }

/-- An authorization check that accepts everything. -/
def authAllow : String → QUrl → QUrl → Bool := fun _ _ _ => true

/-- An authorization check that rejects everything. -/
def authDeny : String → QUrl → QUrl → Bool := fun _ _ _ => false

/-! Helper lemmas. -/

/-- Closed form of the legacy details conversion: the four possible flag
sets, as bitmask values. -/
lemma detailsToStatDetails_closed (d : Int) :
    detailsToStatDetails d =
      if d > 2 then 63 else if d > 1 then 31 else if d > 0 then 7 else 1 := by
  unfold detailsToStatDetails StatBasic StatUser StatTime StatResolveSymlink StatAcl StatInode
  by_cases h2 : d > 2
  · have h1 : d > 1 := by omega
    have h0 : d > 0 := by omega
    simp [h0, h1, h2]
  · by_cases h1 : d > 1
    · have h0 : d > 0 := by omega
      simp [h0, h1, h2]
    · by_cases h0 : d > 0
      · simp [h0, h1, h2]
      · simp [h0, h1, h2]

/-! Claim theorems. -/

/-- C8: the job stores a received `StatEntry` unmodified and `statResult()`
surfaces exactly the stored entry, so two runs in which the worker emits the
same entry surface byte-identical `UDSEntry` results, whatever the jobs'
prior states. -/
theorem claim_C8 (s1 s2 : StatJobState) (e : UDSEntry) :
    statResult (slotStatEntry e s1) = statResult (slotStatEntry e s2)
    ∧ statResult (slotStatEntry e s1) = e :=
  ⟨rfl, rfl⟩

/-- C6: `sendMetaData()` transmits the accumulated outgoing metadata and
clears it — afterwards no key is observable by a later job served by the
same worker — while `sendAndKeepMetaData()` transmits the same map without
clearing it. -/
theorem claim_C6 (s : SessionState) :
    (sendMetaData s).1 = s.mOutgoingMetaData
    ∧ ((sendMetaData s).2).mOutgoingMetaData = []
    ∧ (∀ k, mdLookup ((sendMetaData s).2).mOutgoingMetaData k = none)
    ∧ (sendAndKeepMetaData s).1 = s.mOutgoingMetaData
    ∧ ((sendAndKeepMetaData s).2).mOutgoingMetaData = s.mOutgoingMetaData :=
  ⟨rfl, rfl, fun _ => rfl, rfl, rfl⟩

/-- C9: `mostLocalUrl()` returns the job's own URL when that URL is a local
file; otherwise it returns a local-file URL built from the stat result's
`UDS_LOCAL_PATH` string when that is non-empty, and the job's own URL when
it is empty. -/
theorem claim_C9 (s : StatJobState) :
    (s.m_url.isLocalFile = true → mostLocalUrl s = s.m_url)
    ∧ (s.m_url.isLocalFile = false →
        udsStringValue s.m_statResult UDS_LOCAL_PATH ≠ "" →
        mostLocalUrl s
          = QUrl.fromLocalFile (udsStringValue s.m_statResult UDS_LOCAL_PATH))
    ∧ (s.m_url.isLocalFile = false →
        udsStringValue s.m_statResult UDS_LOCAL_PATH = "" →
        mostLocalUrl s = s.m_url) := by
  refine ⟨?_, ?_, ?_⟩
  · intro h
    simp [mostLocalUrl, h]
  · intro h hne
    simp [mostLocalUrl, h, hne]
  · intro h heq
    simp [mostLocalUrl, h, heq]

/-- Witness for C9 at a concrete local-file job. -/
theorem claim_C9_witness :
    (newStatJob (QUrl.fromLocalFile "/tmp/a") CMD_STAT []).m_url.isLocalFile = true
    ∧ mostLocalUrl (newStatJob (QUrl.fromLocalFile "/tmp/a") CMD_STAT [])
        = QUrl.fromLocalFile "/tmp/a" :=
  ⟨by decide, (claim_C9 (newStatJob (QUrl.fromLocalFile "/tmp/a") CMD_STAT [])).1 (by decide)⟩

/-- C10: `detailsToStatDetails` always includes `StatBasic`, includes
`StatUser`/`StatTime` iff the legacy integer is greater than 0,
`StatResolveSymlink`/`StatAcl` iff greater than 1, `StatInode` iff greater
than 2, and is monotone: a larger legacy value yields a superset of flags
(as bitmasks: the smaller result is a submask of the larger). -/
theorem claim_C10 (d : Int) :
    hasFlag (detailsToStatDetails d) StatBasic
    ∧ (hasFlag (detailsToStatDetails d) StatUser ↔ d > 0)
    ∧ (hasFlag (detailsToStatDetails d) StatTime ↔ d > 0)
    ∧ (hasFlag (detailsToStatDetails d) StatResolveSymlink ↔ d > 1)
    ∧ (hasFlag (detailsToStatDetails d) StatAcl ↔ d > 1)
    ∧ (hasFlag (detailsToStatDetails d) StatInode ↔ d > 2)
    ∧ ∀ d2 : Int, d ≤ d2 →
        detailsToStatDetails d &&& detailsToStatDetails d2 = detailsToStatDetails d := by
  rw [detailsToStatDetails_closed]
  by_cases h2 : d > 2
  · have h1 : d > 1 := by omega
    have h0 : d > 0 := by omega
    refine ⟨?_, ?_, ?_, ?_, ?_, ?_, ?_⟩
    · simp [h2]; decide
    · simp [h2, h0]; decide
    · simp [h2, h0]; decide
    · simp [h2, h1]; decide
    · simp [h2, h1]; decide
    · simp [h2]; decide
    · intro d2 hle
      have g2 : d2 > 2 := by omega
      rw [detailsToStatDetails_closed]
      simp [h2, g2]
  · by_cases h1 : d > 1
    · have h0 : d > 0 := by omega
      refine ⟨?_, ?_, ?_, ?_, ?_, ?_, ?_⟩
      · simp [h2, h1]; decide
      · simp [h2, h1, h0]; decide
      · simp [h2, h1, h0]; decide
      · simp [h2, h1]; decide
      · simp [h2, h1]; decide
      · simp [h2, h1]; decide
      · intro d2 hle
        rw [detailsToStatDetails_closed]
        by_cases g2 : d2 > 2
        · simp [h2, h1, g2]; decide
        · have g1 : d2 > 1 := by omega
          simp [h2, h1, g2, g1]
    · by_cases h0 : d > 0
      · refine ⟨?_, ?_, ?_, ?_, ?_, ?_, ?_⟩
        · simp [h2, h1, h0]; decide
        · simp [h2, h1, h0]; decide
        · simp [h2, h1, h0]; decide
        · simp [h2, h1, h0]; decide
        · simp [h2, h1, h0]; decide
        · simp [h2, h1, h0]; decide
        · intro d2 hle
          rw [detailsToStatDetails_closed]
          by_cases g2 : d2 > 2
          · simp [h2, h1, h0, g2]; decide
          · by_cases g1 : d2 > 1
            · simp [h2, h1, h0, g2, g1]; decide
            · have g0 : d2 > 0 := by omega
              simp [h2, h1, h0, g2, g1, g0]
      · refine ⟨?_, ?_, ?_, ?_, ?_, ?_, ?_⟩
        · simp [h2, h1, h0]; decide
        · simp [h2, h1, h0]; decide
        · simp [h2, h1, h0]; decide
        · simp [h2, h1, h0]; decide
        · simp [h2, h1, h0]; decide
        · simp [h2, h1, h0]; decide
        · intro d2 hle
          rw [detailsToStatDetails_closed]
          by_cases g2 : d2 > 2
          · simp [h2, h1, h0, g2]
          · by_cases g1 : d2 > 1
            · simp [h2, h1, h0, g2, g1]
            · by_cases g0 : d2 > 0
              · simp [h2, h1, h0, g2, g1, g0]
              · simp [h2, h1, h0, g2, g1, g0]

/-- Witness for C10: the flags for legacy details 1 include `StatUser`, and
the flags for 0 are a submask of the flags for 3. -/
theorem claim_C10_witness :
    ((1 : Int) > 0 ∧ hasFlag (detailsToStatDetails 1) StatUser)
    ∧ ((0 : Int) ≤ 3
        ∧ detailsToStatDetails 0 &&& detailsToStatDetails 3 = detailsToStatDetails 0) :=
  ⟨⟨by decide, (claim_C10 1).2.1.mpr (by decide)⟩,
   ⟨by decide, (claim_C10 0).2.2.2.2.2.2 3 (by decide)⟩⟩

/-- C7: when a STAT job created by `KIO::statDetails` is started, the command
issued to the worker is `CMD_STAT`, its packed argument payload encodes the
target URL, and its outgoing metadata carries `statSide` =
`"source"`/`"dest"` according to the side set via `setSide` and
`statDetails` holding the numeric value set via `setDetails`. -/
theorem claim_C7 (url : QUrl) (side : StatSide) (details : Nat) :
    (issuedCommand (startStatJob (statDetailsJob url side details))).cmd = CMD_STAT
    ∧ (issuedCommand (startStatJob (statDetailsJob url side details))).args = [url]
    ∧ mdLookup (issuedCommand (startStatJob (statDetailsJob url side details))).meta
        "statSide" = some (if side = StatSide.SourceSide then "source" else "dest")
    ∧ mdLookup (issuedCommand (startStatJob (statDetailsJob url side details))).meta
        "statDetails" = some (toString details) := by
  cases side <;>
    simp [issuedCommand, startStatJob, statDetailsJob, setDetails, setSide, newStatJob,
      mdInsert, mdLookup]

/-- C2: while active, a `StatEntry` event stores the entry as the job's stat
result without terminating the job, an authorized `Redirection` event
records the URL as a candidate without terminating the job, and on
`Finished` the job is rescheduled with its packed arguments reset to exactly
the redirection URL when a valid redirection was recorded and redirection
handling is enabled — otherwise it terminates, surfacing its accumulated
state (in particular the stored stat result). -/
theorem claim_C2 (auth : String → QUrl → QUrl → Bool) (s : StatJobState)
    (e : UDSEntry) (u : QUrl) :
    (slotStatEntry e s = { s with m_statResult := e }
      ∧ statResult (slotStatEntry e s) = e)
    ∧ (auth "redirect" s.m_url u = true →
        slotRedirection auth u s
          = ({ s with m_redirectionURL := u }, [Signal.redirectionSig u]))
    ∧ (hasValidRedirect s = true → s.m_redirectionHandlingEnabled = true →
        ∃ sigs, slotFinished s
          = FinishedOutcome.rescheduled { s with m_packedArgs := [s.m_redirectionURL] } sigs)
    ∧ ((hasValidRedirect s = false ∨ s.m_redirectionHandlingEnabled = false) →
        ∃ sigs, slotFinished s = FinishedOutcome.terminated s sigs
          ∧ (slotFinished s = FinishedOutcome.terminated s sigs →
              statResult s = s.m_statResult)) := by
  refine ⟨⟨rfl, rfl⟩, ?_, ?_, ?_⟩
  · intro h
    simp [slotRedirection, h]
  · intro hv hen
    refine ⟨permanentRedirectSigs s, ?_⟩
    simp [slotFinished, hv, hen]
  · intro h
    rcases h with h | h
    · refine ⟨[], ?_, fun _ => rfl⟩
      simp [slotFinished, h]
    · by_cases hv : hasValidRedirect s
      · refine ⟨permanentRedirectSigs s, ?_, fun _ => rfl⟩
        simp [slotFinished, hv, h]
      · refine ⟨[], ?_, fun _ => rfl⟩
        simp [slotFinished, hv]

/-- Witness for C2 at a concrete job with a recorded valid redirection and
redirection handling enabled: `Finished` reschedules with the packed
arguments reset to the redirection URL. -/
theorem claim_C2_witness :
    hasValidRedirect sampleJobRedir = true
    ∧ sampleJobRedir.m_redirectionHandlingEnabled = true
    ∧ ∃ sigs, slotFinished sampleJobRedir
        = FinishedOutcome.rescheduled
            { sampleJobRedir with m_packedArgs := [sampleJobRedir.m_redirectionURL] } sigs :=
  ⟨by decide, by decide,
   (claim_C2 authAllow sampleJobRedir [] urlB).2.2.1 (by decide) (by decide)⟩

/-- C3: a `Redirection(url)` event is first validated by the authorization
check from the job's current URL to the new URL.  On rejection the job's
error becomes access-denied with the rejected URL as error text, the
candidate redirection URL is left unchanged (so, in the ordinary case where
no redirection had been recorded before, `Finished` terminates the job
rather than following the redirect) and no signal is emitted; on acceptance
the URL is stored and the redirection signal is emitted. -/
theorem claim_C3 (auth : String → QUrl → QUrl → Bool) (s : StatJobState) (u : QUrl) :
    (auth "redirect" s.m_url u = false →
      slotRedirection auth u s
          = ({ s with errorCode := ERR_ACCESS_DENIED, errorText := u.toDisplayString }, [])
        ∧ (slotRedirection auth u s).1.m_redirectionURL = s.m_redirectionURL
        ∧ (s.m_redirectionURL.isEmpty = true →
            ∃ sigs, slotFinished (slotRedirection auth u s).1
              = FinishedOutcome.terminated (slotRedirection auth u s).1 sigs))
    ∧ (auth "redirect" s.m_url u = true →
        slotRedirection auth u s
          = ({ s with m_redirectionURL := u }, [Signal.redirectionSig u])) := by
  constructor
  · intro h
    refine ⟨by simp [slotRedirection, h], by simp [slotRedirection, h], ?_⟩
    intro hemp
    refine ⟨[], ?_⟩
    have hval : hasValidRedirect (slotRedirection auth u s).1 = false := by
      simp [slotRedirection, h, hasValidRedirect, hemp]
    simp [slotFinished, hval]
  · intro h
    simp [slotRedirection, h]

/-- Witness for C3 at a concrete rejected redirection: the error becomes
access-denied with the rejected URL as text, nothing is recorded, no signal
is emitted, and `Finished` terminates the job. -/
theorem claim_C3_witness :
    authDeny "redirect" sampleJob.m_url urlB = false
    ∧ slotRedirection authDeny urlB sampleJob
        = ({ sampleJob with
              errorCode := ERR_ACCESS_DENIED, errorText := urlB.toDisplayString }, [])
    ∧ (slotRedirection authDeny urlB sampleJob).1.m_redirectionURL
        = sampleJob.m_redirectionURL :=
  ⟨by decide,
   ((claim_C3 authDeny sampleJob urlB).1 (by decide)).1,
   ((claim_C3 authDeny sampleJob urlB).1 (by decide)).2.1⟩

/-- The re-arm loop either completes with fewer than `h0 + fuel` total hops
or exhausts its budget with the loop-detection failure. -/
lemma runChain_bound (auth : String → QUrl → QUrl → Bool) (worker : QUrl → WorkerReply) :
    ∀ fuel h0 s,
      (∃ final hops,
          runChain auth worker fuel h0 s = ChainResult.completed final hops
          ∧ hops < h0 + fuel)
      ∨ runChain auth worker fuel h0 s = ChainResult.loopError := by
  intro fuel
  induction fuel with
  | zero =>
    intro h0 s
    right
    rfl
  | succ n ih =>
    intro h0 s
    cases hr : runOp auth (worker s.m_url) s with
    | terminated final sg =>
      left
      exact ⟨final, h0, by simp [runChain, hr], by omega⟩
    | rescheduled s1 sg =>
      rcases ih (h0 + 1) (restartAfterRedirection s1) with ⟨final, hops, hk, hlt⟩ | hloop
      · left
        refine ⟨final, hops, ?_, by omega⟩
        simp [runChain, hr, hk]
      · right
        simp [runChain, hr, hloop]

/-- C4: for every worker behavior, every authorization check, every hop
limit and every starting job, the redirection re-arm loop never repeats
indefinitely: either the chain completes within the configured hop limit or
it fails with the loop-detection error. -/
theorem claim_C4 (auth : String → QUrl → QUrl → Bool) (worker : QUrl → WorkerReply)
    (limit : Nat) (s : StatJobState) :
    (∃ final hops,
        runChain auth worker limit 0 s = ChainResult.completed final hops
        ∧ hops < limit)
    ∨ runChain auth worker limit 0 s = ChainResult.loopError := by
  simpa using runChain_bound auth worker limit 0 s

/-- Once an operation has terminated, the channel accepts no further event:
an accepted continuation from the terminated phase is empty. -/
lemma acceptTrace_terminated (l : List WEvent) (p1 : OpPhase)
    (h : acceptTrace OpPhase.terminatedPhase l = some p1) : l = [] := by
  cases l with
  | nil => rfl
  | cons e rest => simp [acceptTrace, opAccept] at h

/-- An accepted trace contains at most one terminal event. -/
lemma acceptTrace_count (l : List WEvent) :
    ∀ p1, acceptTrace OpPhase.running l = some p1 →
      (l.filter WEvent.isTerminal).length ≤ 1 := by
  induction l with
  | nil =>
    intro p1 _
    simp
  | cons e rest ih =>
    intro p1 h
    by_cases ht : e.isTerminal
    · have hrest : acceptTrace OpPhase.terminatedPhase rest = some p1 := by
        simpa [acceptTrace, opAccept, ht] using h
      have : rest = [] := acceptTrace_terminated rest p1 hrest
      subst this
      simp [ht]
    · have hrest : acceptTrace OpPhase.running rest = some p1 := by
        simpa [acceptTrace, opAccept, ht] using h
      have hb : e.isTerminal = false := by
        simpa using ht
      simpa [hb] using ih p1 hrest

/-- In an accepted trace, any terminal event is the last event. -/
lemma acceptTrace_terminal_last (pre : List WEvent) :
    ∀ e post p1, acceptTrace OpPhase.running (pre ++ e :: post) = some p1 →
      e.isTerminal = true → post = [] := by
  induction pre with
  | nil =>
    intro e post p1 h ht
    have hrest : acceptTrace OpPhase.terminatedPhase post = some p1 := by
      simpa [acceptTrace, opAccept, ht] using h
    exact acceptTrace_terminated post p1 hrest
  | cons x pre ih =>
    intro e post p1 h ht
    by_cases hx : x.isTerminal
    · have hrest : acceptTrace OpPhase.terminatedPhase (pre ++ e :: post) = some p1 := by
        simpa [acceptTrace, opAccept, hx] using h
      have := acceptTrace_terminated _ _ hrest
      simp at this
    · have hrest : acceptTrace OpPhase.running (pre ++ e :: post) = some p1 := by
        simpa [acceptTrace, opAccept, hx] using h
      exact ih e post p1 hrest ht

/-- C1: in every event trace the channel/dispatch layer accepts for one
operation, at most one terminal event (`Finished` or `Error`) occurs, and
any terminal event is the last event of the trace — nothing is ever
delivered after `Finished` or `Error`. -/
theorem claim_C1 (trace : List WEvent) (p1 : OpPhase)
    (hacc : acceptTrace OpPhase.running trace = some p1) :
    (trace.filter WEvent.isTerminal).length ≤ 1
    ∧ ∀ pre e post, trace = pre ++ e :: post → e.isTerminal = true → post = [] := by
  refine ⟨acceptTrace_count trace p1 hacc, ?_⟩
  intro pre e post heq ht
  subst heq
  exact acceptTrace_terminal_last pre e post p1 hacc ht

/-- Witness for C1 at a concrete accepted trace ending in `Finished`. -/
theorem claim_C1_witness :
    acceptTrace OpPhase.running [WEvent.dataRequest, WEvent.finishedEv]
        = some OpPhase.terminatedPhase
    ∧ (([WEvent.dataRequest, WEvent.finishedEv].filter WEvent.isTerminal).length ≤ 1) :=
  ⟨rfl, (claim_C1 [WEvent.dataRequest, WEvent.finishedEv] OpPhase.terminatedPhase rfl).1⟩

/-- C5: a fired timeout special command can only happen while the loop is
waiting for a command and the armed timeout elapses; it fires the armed
payload exactly once (the armed command is cleared, so a further elapsed
timeout fires nothing) and the loop stays in the waiting phase.  A negative
timeout cancels any pending timeout, and setting a timeout replaces any
pending one, so at most one is armed at a time. -/
theorem claim_C5 (s : WorkerLoop) (i : LoopInput) :
    (∀ s1 d, loopStep s i = (s1, some d) →
        s.phase = LoopPhase.waiting
        ∧ i = LoopInput.timeoutElapsed
        ∧ (∃ t, s.pendingSpecial = some (t, d))
        ∧ s1.phase = LoopPhase.waiting
        ∧ s1.pendingSpecial = none
        ∧ (loopStep s1 LoopInput.timeoutElapsed).2 = none)
    ∧ (∀ t d, t < 0 → (setTimeoutSpecialCommand t d s).pendingSpecial = none)
    ∧ (∀ t d, 0 ≤ t → (setTimeoutSpecialCommand t d s).pendingSpecial = some (t, d)) := by
  refine ⟨?_, ?_, ?_⟩
  · intro s1 d h
    cases hp : s.phase with
    | waiting =>
      cases i with
      | arrive c dd => simp [loopStep, hp] at h
      | timeoutElapsed =>
        cases hps : s.pendingSpecial with
        | none => simp [loopStep, hp, hps] at h
        | some td =>
          obtain ⟨t, dd⟩ := td
          simp [loopStep, hp, hps] at h
          obtain ⟨hs1, hd⟩ := h
          subst hd
          subst hs1
          exact ⟨rfl, rfl, ⟨t, rfl⟩, rfl, rfl, rfl⟩
      | opDone => simp [loopStep, hp] at h
    | executing c dd =>
      cases i with
      | arrive c2 d2 => simp [loopStep, hp] at h
      | timeoutElapsed => simp [loopStep, hp] at h
      | opDone => simp [loopStep, hp] at h
  · intro t d ht
    simp [setTimeoutSpecialCommand, ht]
  · intro t d ht
    have : ¬t < 0 := by omega
    simp [setTimeoutSpecialCommand, this]

/-- Witness for C5: at a concrete waiting loop with an armed special
command, the elapsed timeout leaves the loop waiting with the armed command
cleared, and a negative timeout cancels a pending one. -/
theorem claim_C5_witness :
    ((WorkerLoop.mk LoopPhase.waiting none).phase = LoopPhase.waiting
      ∧ (WorkerLoop.mk LoopPhase.waiting none).pendingSpecial = none
      ∧ (loopStep (WorkerLoop.mk LoopPhase.waiting none) LoopInput.timeoutElapsed).2 = none)
    ∧ ((-1 : Int) < 0
      ∧ (setTimeoutSpecialCommand (-1) [9]
          (WorkerLoop.mk LoopPhase.waiting (some (5, [7])))).pendingSpecial = none) :=
  ⟨(((claim_C5 (WorkerLoop.mk LoopPhase.waiting (some (5, [7])))
      LoopInput.timeoutElapsed).1 (WorkerLoop.mk LoopPhase.waiting none) [7] rfl)).2.2.2,
   ⟨by decide,
    (claim_C5 (WorkerLoop.mk LoopPhase.waiting (some (5, [7])))
      LoopInput.timeoutElapsed).2.1 (-1) [9] (by decide)⟩⟩

end KIOModel
